import Mathlib

/-!
Verification development for the per-guild music queue engine
(`QueueHandler` in `src/handlers/QueueHandler.ts`, whose full text appears in
`src/commands/shuffle.ts` of this checkout) and for the message dispatcher
(`CommandHandler.handleMessage` in `src/handlers/CommandHandler.ts`).

The queue store `Map<string, QueuedSong[]>` is modelled as a function from
guild ids to an optional list (`none` models an absent key).  Every mutating
method returns the new store together with the list of guild ids for which a
`queueUpdate` event was emitted during the call, plus its return value.
`Math.random()` draws of the shuffle are made explicit as a list of natural
numbers, one per loop iteration.  JavaScript strings handled by the
dispatcher are modelled as lists of characters.
-/

/-- `Song` of `MetaHandler`: an opaque media descriptor.  Only identity of
songs matters to the queue engine, so two representative fields suffice. -/
structure Song where
  title : String
  link : String
deriving DecidableEq, Inhabited

/-- The `requestedBy` record stored by `addLinkToQueue`: `id` and `username`
of the requesting user. -/
structure Requester where
  id : String
  username : String
deriving DecidableEq, Inhabited

/-- `QueuedSong` of `QueueHandler.ts`: a song paired with its requester. -/
structure QueuedSong where
  song : Song
  requestedBy : Requester
deriving DecidableEq, Inhabited

abbrev GuildId := String

/-- The private field `queues : Map<string, QueuedSong[]>`, as a function;
`none` models a key that is absent from the map. -/
abbrev QMap := GuildId → Option (List QueuedSong)

/-- `this.queues.set(g, q)`. -/
def mapSet (m : QMap) (g : GuildId) (q : List QueuedSong) : QMap :=
  fun x => if x = g then some q else m x

/-- The store of a freshly constructed `QueueHandler` (empty map). -/
def emptyQMap : QMap := fun _ => none

/-- `getQueue` (lines 176-178): `this.queues.get(guild.id) || []`.  Both an
absent key and a stored empty array denote the empty queue. -/
def getQueue (m : QMap) (g : GuildId) : List QueuedSong :=
  (m g).getD []

/-- `clearQueue` (lines 44-47): store an empty array and emit `queueUpdate`. -/
def clearQueue (m : QMap) (g : GuildId) : QMap × List GuildId :=
  (mapSet m g [], [g])

/-- `addLinkToQueue` (lines 49-80).  The external `metaHandler.getSongMetadata`
call is abstracted by its outcome `resolved` (`none` models a null
`result.metadata`, in which case the method throws and mutates nothing).
On success the method ensures the key exists, pushes the new `QueuedSong`,
emits `queueUpdate`, and — because the local `queue` aliases the array that
was just pushed to — attempts to start playback exactly when the queue length
after the push is at most 1.  The playback attempt (lines 71-77) sits inside
a `try/catch` whose `catch` only logs, so its outcome `_playbackOk` has no
effect on the store or on the returned value; the returned `Bool` records
whether the attempt was made.  Result: (new store, emitted events, playback
attempted, thrown error or resolved metadata). -/
def addLinkToQueue (m : QMap) (g : GuildId) (resolved : Option Song)
    (requesterId requesterName : String) (_playbackOk : Bool) :
    QMap × List GuildId × Bool × Except String Song :=
  match resolved with
  | none => (m, [], false, Except.error "Could not fetch song metadata")
  | some md =>
    let m1 := match m g with
      | some _ => m
      | none => mapSet m g []
    let q := (m1 g).getD []
    let q2 := q ++ [⟨md, ⟨requesterId, requesterName⟩⟩]
    (mapSet m1 g q2, [g], decide (q2.length ≤ 1), Except.ok md)

/-- `getCurrentQueueItem` (lines 82-88): the item at position 0, without
mutation; `null` on an absent or empty queue. -/
def getCurrentQueueItem (m : QMap) (g : GuildId) : Option QueuedSong :=
  match m g with
  | none => none
  | some q => if q.length = 0 then none else q.head?

/-- `getNextQueueItem` (lines 90-104): on an absent or empty queue, return
`null` with no mutation and no event; otherwise `shift()` the head off the
stored array, emit `queueUpdate`, and return the new head (or `null`). -/
def getNextQueueItem (m : QMap) (g : GuildId) :
    QMap × List GuildId × Option QueuedSong :=
  match m g with
  | none => (m, [], none)
  | some q =>
    if q.length = 0 then (m, [], none)
    else (mapSet m g q.tail, [g], q.tail.head?)

/-- `clearQueueExceptCurrent` (lines 106-116): no-op on an absent or empty
queue; otherwise store `[queue[0]]` and emit `queueUpdate` (also when the
queue already had exactly one element). -/
def clearQueueExceptCurrent (m : QMap) (g : GuildId) : QMap × List GuildId :=
  match m g with
  | none => (m, [])
  | some q =>
    if q.length = 0 then (m, [])
    else (mapSet m g [q.headD default], [g])

/-- One step of the in-place swap `[a[i], a[j]] = [a[j], a[i]]` (line 131),
on lists: both reads happen before both writes. -/
def swapIdx {α : Type} [Inhabited α] (l : List α) (i j : Nat) : List α :=
  (l.set i (l.getD j default)).set j (l.getD i default)

/-- The Fisher-Yates loop of `shuffleQueue` (lines 129-132):
`for (let i = len-1; i > 0; i--) swap(i, Math.floor(Math.random()*(i+1)))`.
The first argument of the pair (counter, draws) is the loop variable `i`;
`draws` lists the successive `Math.floor(Math.random() * (i + 1))` values. -/
def fyLoop {α : Type} [Inhabited α] : List α → Nat → List Nat → List α
  | l, _, [] => l
  | l, 0, _ :: _ => l
  | l, Nat.succ i, j :: js => fyLoop (swapIdx l (i + 1) j) i js

/-- A draw list is valid for initial counter `c` when it has exactly one
entry per loop iteration and the entry for counter value `i` lies in
`[0, i]`, the range of `Math.floor(Math.random() * (i + 1))`. -/
def validDraws : Nat → List Nat → Bool
  | 0, [] => true
  | Nat.succ i, j :: js => decide (j ≤ i + 1) && validDraws i js
  | _, _ => false

/-- `shuffleQueue` (lines 118-137): no-op on an absent queue or one of
length at most 1; otherwise pin `queue[0]`, shuffle `queue.slice(1)` with
the Fisher-Yates loop, store `[current, ...remaining]` and emit
`queueUpdate`. -/
def shuffleQueue (m : QMap) (g : GuildId) (draws : List Nat) :
    QMap × List GuildId :=
  let q := getQueue m g
  if q.length ≤ 1 then (m, [])
  else
    (mapSet m g (q.headD default :: fyLoop q.tail (q.tail.length - 1) draws),
     [g])

/-- `moveSong` (lines 139-157).  Guards: absent or empty queue, an index
outside `[0, length)`, or equal indices give `false` with no mutation and no
event.  Otherwise `splice(fromIndex, 1)` removes the song and
`splice(toIndex, 0, song)` re-inserts it, `queueUpdate` is emitted and the
method returns `true`.  Indices are JavaScript numbers, modelled as `Int`. -/
def moveSong (m : QMap) (g : GuildId) (fromIndex toIndex : Int) :
    QMap × List GuildId × Bool :=
  match m g with
  | none => (m, [], false)
  | some q =>
    if q.length = 0 then (m, [], false)
    else if fromIndex < 0 ∨ (q.length : Int) ≤ fromIndex ∨
        toIndex < 0 ∨ (q.length : Int) ≤ toIndex ∨ fromIndex = toIndex then
      (m, [], false)
    else
      let f := fromIndex.toNat
      let t := toIndex.toNat
      let song := q.getD f default
      let q1 := q.take f ++ q.drop (f + 1)
      let q2 := q1.take t ++ song :: q1.drop t
      (mapSet m g q2, [g], true)

/-- `removeSong` (lines 159-174).  Guards: absent or empty queue, or an index
outside `[0, length)` give `null` with no mutation and no event.  Otherwise
`splice(index, 1)` removes the song, `queueUpdate` is emitted and the removed
song is returned. -/
def removeSong (m : QMap) (g : GuildId) (index : Int) :
    QMap × List GuildId × Option QueuedSong :=
  match m g with
  | none => (m, [], none)
  | some q =>
    if q.length = 0 then (m, [], none)
    else if index < 0 ∨ (q.length : Int) ≤ index then (m, [], none)
    else
      let i := index.toNat
      (mapSet m g (q.take i ++ q.drop (i + 1)), [g], some (q.getD i default))

/-! ### Dispatcher model (`CommandHandler.ts`)

JavaScript strings are sequences of characters; Lean's builtin `String`
operations do not reduce in the kernel, so the dispatcher is embedded over
`List Char`. -/

abbrev JsString := List Char

/-- `content.startsWith(p)`: the first `p.length` characters equal `p`. -/
def jsStartsWith (s p : JsString) : Bool :=
  s.take p.length == p

/-- `s.trim()`: strip leading and trailing whitespace. -/
def jsTrim (s : JsString) : JsString :=
  ((s.dropWhile Char.isWhitespace).reverse.dropWhile Char.isWhitespace).reverse

/-- `s.split(/ +/)` restricted to the trimmed strings it is applied to
(line 118): on the empty string JavaScript yields `[""]`; on a non-empty
string with no leading or trailing blanks it yields the maximal blank-free
runs. -/
def jsSplitPlus (s : JsString) : List JsString :=
  if s = [] then [[]]
  else (List.splitOn ' ' s).filter (fun w => w ≠ [])

/-- `w.toLowerCase()`, character by character. -/
def jsToLower (w : JsString) : JsString :=
  w.map Char.toLower

/-- The optional `requirements` record of a command module; a missing flag
behaves like `false` in the source's truthiness tests, so flags are `Bool`. -/
structure CommandRequirements where
  userInVoiceChannel : Bool
  messageSentInGuild : Bool
deriving DecidableEq, Inhabited

/-- A registered command as the dispatcher sees it. -/
structure BotCommand where
  cmdName : JsString
  requirements : Option CommandRequirements
deriving DecidableEq, Inhabited

/-- The fields of the incoming `Message` read by `handleMessage` and
`checkRequirements`: its content, whether `message.author.bot`, whether
`message.guild` is present, and whether `message.member?.voice.channel`
is present. -/
structure IncomingMessage where
  content : JsString
  authorBot : Bool
  guildPresent : Bool
  memberInVoice : Bool
deriving DecidableEq, Inhabited

/-- `checkRequirements` (lines 85-100): a `[Bool, String]` pair. -/
def checkRequirements (msg : IncomingMessage) (cmd : BotCommand) :
    Bool × String :=
  match cmd.requirements with
  | none => (true, "")
  | some req =>
    if req.messageSentInGuild && !msg.guildPresent then
      (false, "This command can only be used in a server!")
    else if req.userInVoiceChannel && !msg.memberInVoice then
      (false, "You must be in a voice channel to use this command!")
    else (true, "")

/-- Observable outcome of one `handleMessage` call: nothing at all, a reply
about unmet requirements, dispatch of a command (whose own execution,
including its error reply, is outside this method's early guards), or the
unknown-command reply.  Only `executed` reaches any command code, hence only
`executed` can reach queue state; the registry maps are never written. -/
inductive DispatchResult where
  | noAction : DispatchResult
  | replyRequirement : String → DispatchResult
  | executed : JsString → List JsString → DispatchResult
  | replyUnknown : DispatchResult
deriving DecidableEq

/-- `handleMessage` (lines 113-144).  `pfx` is the guild's configured command
indicator fetched on line 114; `replyUnknown` the `REPLY_TO_UNKNOWN_COMMANDS`
setting; `commands` and `aliases` the two registry maps as association
lists. -/
def handleMessage (pfx : JsString) (replyUnknown : Bool)
    (commands : List (JsString × BotCommand))
    (aliases : List (JsString × JsString)) (msg : IncomingMessage) :
    DispatchResult :=
  if !(jsStartsWith msg.content pfx) || msg.authorBot then
    DispatchResult.noAction
  else
    match jsSplitPlus (jsTrim (msg.content.drop pfx.length)) with
    | [] => DispatchResult.noAction
    | w :: args =>
      let commandName := jsToLower w
      if commandName = [] then DispatchResult.noAction
      else
        let mainCommandName := (aliases.lookup commandName).getD commandName
        match commands.lookup mainCommandName with
        | some cmd =>
          let chk := checkRequirements msg cmd
          if chk.1 then DispatchResult.executed mainCommandName args
          else DispatchResult.replyRequirement chk.2
        | none =>
          if replyUnknown then DispatchResult.replyUnknown
          else DispatchResult.noAction

/-! ### Concrete data for witnesses -/

def songA : QueuedSong := ⟨⟨"Song A", "linkA"⟩, ⟨"u1", "alice"⟩⟩

def songB : QueuedSong := ⟨⟨"Song B", "linkB"⟩, ⟨"u2", "bob"⟩⟩

def songC : QueuedSong := ⟨⟨"Song C", "linkC"⟩, ⟨"u3", "carol"⟩⟩

/-- A store holding the queue `[songA, songB, songC]` for guild `"g"`. -/
def qABC : QMap := mapSet emptyQMap "g" [songA, songB, songC]

/-- A store holding the queue `[songA]` for guild `"g"`. -/
def qA : QMap := mapSet emptyQMap "g" [songA]

/-- A store holding `[songA]` for `"g"` and `[songB]` for `"h"`. -/
def qAB2 : QMap := mapSet (mapSet emptyQMap "h" [songB]) "g" [songA]

/-! ### Helper lemmas about `swapIdx` and `fyLoop` -/

theorem mapSet_same (m : QMap) (g : GuildId) (q : List QueuedSong) :
    mapSet m g q g = some q := by
  simp [mapSet]

theorem mapSet_other (m : QMap) (g g' : GuildId) (q : List QueuedSong)
    (h : g' ≠ g) : mapSet m g q g' = m g' := by
  simp [mapSet, h]

theorem getD_set_ne {α : Type} (l : List α) (i k : Nat) (x d : α) (h : i ≠ k) :
    (l.set i x).getD k d = l.getD k d := by
  induction l generalizing i k with
  | nil => rfl
  | cons a t ih =>
    cases i with
    | zero =>
      cases k with
      | zero => exact absurd rfl h
      | succ k => simp [List.set]
    | succ i =>
      cases k with
      | zero => simp [List.set]
      | succ k =>
        simp only [List.set, List.getD_cons_succ]
        exact ih i k (by omega)

theorem getD_set_self {α : Type} (l : List α) (i : Nat) (x d : α) (h : i < l.length) :
    (l.set i x).getD i d = x := by
  induction l generalizing i with
  | nil => simp at h
  | cons a t ih =>
    cases i with
    | zero => simp [List.set]
    | succ i =>
      simp only [List.set, List.getD_cons_succ]
      exact ih i (by simpa using h)

theorem getD_irrel {α : Type} (l : List α) (i : Nat) (d e : α) (h : i < l.length) :
    l.getD i d = l.getD i e := by
  rw [List.getD_eq_getElem l d h, List.getD_eq_getElem l e h]

theorem getD_mem {α : Type} (l : List α) (i : Nat) (d : α) (h : i < l.length) :
    l.getD i d ∈ l := by
  rw [List.getD_eq_getElem l d h]
  exact List.getElem_mem h

theorem swapIdx_length {α : Type} [Inhabited α] (l : List α) (i j : Nat) :
    (swapIdx l i j).length = l.length := by
  simp [swapIdx]

theorem swapIdx_getD_fst {α : Type} [Inhabited α] (l : List α) (i j : Nat) (hi : i < l.length)
    (hj : j < l.length) :
    (swapIdx l i j).getD i default = l.getD j default := by
  unfold swapIdx
  by_cases hij : j = i
  · subst hij
    exact getD_set_self _ j _ _ (by simpa using hj)
  · rw [getD_set_ne _ j i _ _ hij]
    exact getD_set_self _ i _ _ (by simpa using hi)

theorem swapIdx_getD_ne {α : Type} [Inhabited α] (l : List α) (i j k : Nat) (hik : i ≠ k)
    (hjk : j ≠ k) : (swapIdx l i j).getD k default = l.getD k default := by
  unfold swapIdx
  rw [getD_set_ne _ j k _ _ hjk, getD_set_ne _ i k _ _ hik]

theorem getD_cons_set_perm {α : Type} [Inhabited α] (l : List α) (j : Nat) (a : α)
    (hj : j < l.length) :
    List.Perm (l.getD j default :: l.set j a) (a :: l) := by
  induction l generalizing j with
  | nil => simp at hj
  | cons b t ih =>
    cases j with
    | zero =>
      simp only [List.getD_cons_zero, List.set]
      exact List.Perm.swap a b t
    | succ j =>
      have hj' : j < t.length := by simpa using hj
      have h0 : (b :: t).set (j + 1) a = b :: t.set j a := by simp [List.set]
      rw [h0]
      exact ((List.Perm.swap b (t.getD j default) (t.set j a)).trans
        (List.Perm.cons b (ih j hj'))).trans (List.Perm.swap a b t)

theorem swapIdx_perm {α : Type} [Inhabited α] (l : List α) (i j : Nat) (hi : i < l.length)
    (hj : j < l.length) : List.Perm (swapIdx l i j) l := by
  induction l generalizing i j with
  | nil => simp at hi
  | cons a t ih =>
    cases i with
    | zero =>
      cases j with
      | zero =>
        simp only [swapIdx, List.getD_cons_zero, List.set]
        exact List.Perm.refl _
      | succ j =>
        have hj' : j < t.length := by simpa using hj
        have : swapIdx (a :: t) 0 (j + 1)
            = t.getD j default :: t.set j a := by
          simp [swapIdx, List.set]
        rw [this]
        exact getD_cons_set_perm t j a hj'
    | succ i =>
      cases j with
      | zero =>
        have hi' : i < t.length := by simpa using hi
        have : swapIdx (a :: t) (i + 1) 0
            = t.getD i default :: t.set i a := by
          simp [swapIdx, List.set]
        rw [this]
        exact getD_cons_set_perm t i a hi'
      | succ j =>
        have hi' : i < t.length := by simpa using hi
        have hj' : j < t.length := by simpa using hj
        have : swapIdx (a :: t) (i + 1) (j + 1) = a :: swapIdx t i j := by
          simp [swapIdx, List.set]
        rw [this]
        exact List.Perm.cons a (ih i j hi' hj')


theorem fyLoop_nil {α : Type} [Inhabited α] (l : List α) (c : Nat) :
    fyLoop l c [] = l := by
  cases c <;> rfl

theorem fyLoop_length {α : Type} [Inhabited α] (ds : List Nat) (l : List α)
    (c : Nat) : (fyLoop l c ds).length = l.length := by
  induction ds generalizing l c with
  | nil => rw [fyLoop_nil]
  | cons j js ih =>
    cases c with
    | zero => rfl
    | succ c =>
      show (fyLoop (swapIdx l (c + 1) j) c js).length = l.length
      rw [ih, swapIdx_length]

theorem validDraws_zero (ds : List Nat) (h : validDraws 0 ds = true) :
    ds = [] := by
  cases ds with
  | nil => rfl
  | cons j js => simp [validDraws] at h

theorem validDraws_succ (c : Nat) (ds : List Nat)
    (h : validDraws (c + 1) ds = true) :
    ∃ j js, ds = j :: js ∧ j ≤ c + 1 ∧ validDraws c js = true := by
  cases ds with
  | nil => simp [validDraws] at h
  | cons j js =>
    refine ⟨j, js, rfl, ?_, ?_⟩
    · have := (Bool.and_eq_true _ _).mp h
      exact of_decide_eq_true this.1
    · exact ((Bool.and_eq_true _ _).mp h).2

theorem fyLoop_perm {α : Type} [Inhabited α] (c : Nat) (ds : List Nat)
    (l : List α) (hc : c < l.length) (hv : validDraws c ds = true) :
    List.Perm (fyLoop l c ds) l := by
  induction c generalizing l ds with
  | zero =>
    rw [validDraws_zero ds hv, fyLoop_nil]
  | succ c ih =>
    obtain ⟨j, js, rfl, hj, hv'⟩ := validDraws_succ c ds hv
    show List.Perm (fyLoop (swapIdx l (c + 1) j) c js) l
    have hswap : List.Perm (swapIdx l (c + 1) j) l :=
      swapIdx_perm l (c + 1) j hc (lt_of_le_of_lt hj hc)
    have hrec : List.Perm (fyLoop (swapIdx l (c + 1) j) c js)
        (swapIdx l (c + 1) j) := by
      refine ih js _ ?_ hv'
      rw [swapIdx_length]
      omega
    exact hrec.trans hswap

theorem fyLoop_getD_high {α : Type} [Inhabited α] (c : Nat) (ds : List Nat)
    (l : List α) (k : Nat) (hv : validDraws c ds = true) (hk : c < k) :
    (fyLoop l c ds).getD k default = l.getD k default := by
  induction c generalizing l ds with
  | zero => rw [validDraws_zero ds hv, fyLoop_nil]
  | succ c ih =>
    obtain ⟨j, js, rfl, hj, hv'⟩ := validDraws_succ c ds hv
    show (fyLoop (swapIdx l (c + 1) j) c js).getD k default = l.getD k default
    rw [ih js _ hv' (by omega)]
    exact swapIdx_getD_ne l (c + 1) j k (by omega) (by omega)

theorem nodup_getD_inj {α : Type} [Inhabited α] (l : List α) (hn : l.Nodup)
    (i j : Nat) (hi : i < l.length) (hj : j < l.length)
    (h : l.getD i default = l.getD j default) : i = j := by
  rw [List.getD_eq_getElem l default hi, List.getD_eq_getElem l default hj]
    at h
  exact (List.Nodup.getElem_inj_iff hn).mp h

theorem fyLoop_inj {α : Type} [Inhabited α] (c : Nat) (l : List α)
    (hn : l.Nodup) (hc : c < l.length) (ds₁ ds₂ : List Nat)
    (hv₁ : validDraws c ds₁ = true) (hv₂ : validDraws c ds₂ = true)
    (heq : fyLoop l c ds₁ = fyLoop l c ds₂) : ds₁ = ds₂ := by
  induction c generalizing l ds₁ ds₂ with
  | zero => rw [validDraws_zero ds₁ hv₁, validDraws_zero ds₂ hv₂]
  | succ c ih =>
    obtain ⟨j₁, js₁, rfl, hj₁, hv₁'⟩ := validDraws_succ c ds₁ hv₁
    obtain ⟨j₂, js₂, rfl, hj₂, hv₂'⟩ := validDraws_succ c ds₂ hv₂
    have hkey : ∀ (j : Nat), j ≤ c + 1 → ∀ js, validDraws c js = true →
        (fyLoop l (c + 1) (j :: js)).getD (c + 1) default
          = l.getD j default := by
      intro j hj js hvj
      show (fyLoop (swapIdx l (c + 1) j) c js).getD (c + 1) default
        = l.getD j default
      rw [fyLoop_getD_high c js _ (c + 1) hvj (by omega)]
      exact swapIdx_getD_fst l (c + 1) j hc (lt_of_le_of_lt hj hc)
    have hjeq : j₁ = j₂ := by
      apply nodup_getD_inj l hn j₁ j₂ (lt_of_le_of_lt hj₁ hc)
        (lt_of_le_of_lt hj₂ hc)
      rw [← hkey j₁ hj₁ js₁ hv₁', ← hkey j₂ hj₂ js₂ hv₂', heq]
    subst hjeq
    have heq' : fyLoop (swapIdx l (c + 1) j₁) c js₁
        = fyLoop (swapIdx l (c + 1) j₁) c js₂ := heq
    have hn' : (swapIdx l (c + 1) j₁).Nodup :=
      ((swapIdx_perm l (c + 1) j₁ hc (lt_of_le_of_lt hj₁ hc)).nodup_iff).mpr
        hn
    have hc' : c < (swapIdx l (c + 1) j₁).length := by
      rw [swapIdx_length]; omega
    rw [ih _ hn' hc' js₁ js₂ hv₁' hv₂' heq']

theorem swapIdx_append {α : Type} [Inhabited α] (l r : List α) (i j : Nat)
    (hi : i < l.length) (hj : j < l.length) :
    swapIdx (l ++ r) i j = swapIdx l i j ++ r := by
  unfold swapIdx
  rw [List.getD_append l r default j hj, List.getD_append l r default i hi,
    List.set_append, if_pos hi, List.set_append,
    if_pos (by rw [List.length_set]; exact hj)]

theorem fyLoop_append {α : Type} [Inhabited α] (c : Nat) (ds : List Nat)
    (l r : List α) (hv : validDraws c ds = true) (hc : c < l.length) :
    fyLoop (l ++ r) c ds = fyLoop l c ds ++ r := by
  induction c generalizing l ds with
  | zero => rw [validDraws_zero ds hv, fyLoop_nil, fyLoop_nil]
  | succ c ih =>
    obtain ⟨j, js, rfl, hj, hv'⟩ := validDraws_succ c ds hv
    show fyLoop (swapIdx (l ++ r) (c + 1) j) c js
      = fyLoop (swapIdx l (c + 1) j) c js ++ r
    rw [swapIdx_append l r (c + 1) j hc (lt_of_le_of_lt hj hc)]
    exact ih js (swapIdx l (c + 1) j) hv' (by rw [swapIdx_length]; omega)

theorem eq_dropLast_append_getD {α : Type} [Inhabited α] (l : List α)
    (h : l ≠ []) : l = l.dropLast ++ [l.getD (l.length - 1) default] := by
  induction l with
  | nil => exact absurd rfl h
  | cons a t ih =>
    cases t with
    | nil => rfl
    | cons b t2 =>
      have ih2 := ih (List.cons_ne_nil b t2)
      have hd : (a :: b :: t2).dropLast = a :: (b :: t2).dropLast := rfl
      have hg : (a :: b :: t2).getD ((a :: b :: t2).length - 1) default
          = (b :: t2).getD ((b :: t2).length - 1) default := by
        simp [List.getD_cons_succ]
      rw [hd, hg, List.cons_append]
      exact congrArg (List.cons a) ih2

theorem fyLoop_surj {α : Type} [Inhabited α] (c : Nat) :
    ∀ (l t : List α), l.length = c + 1 → List.Perm t l →
    ∃ ds, validDraws c ds = true ∧ fyLoop l c ds = t := by
  induction c with
  | zero =>
    intro l t hl hp
    refine ⟨[], rfl, ?_⟩
    rw [fyLoop_nil]
    obtain ⟨a, rfl⟩ := List.length_eq_one.mp hl
    exact (List.perm_singleton.mp hp).symm
  | succ c ih =>
    intro l t hl hp
    have hlt : t.length = c + 2 := by rw [hp.length_eq, hl]
    have hxt : t.getD (c + 1) default ∈ t :=
      getD_mem t (c + 1) default (by omega)
    have hxl : t.getD (c + 1) default ∈ l := (hp.mem_iff).mp hxt
    obtain ⟨j, hjlen, hjx⟩ := List.mem_iff_getElem.mp hxl
    have hj : j ≤ c + 1 := by omega
    have hjx2 : l.getD j default = t.getD (c + 1) default := by
      rw [List.getD_eq_getElem l default hjlen]; exact hjx
    have hc1 : c + 1 < l.length := by omega
    have hswlen : (swapIdx l (c + 1) j).length = c + 2 := by
      rw [swapIdx_length, hl]
    have hswp : List.Perm (swapIdx l (c + 1) j) l :=
      swapIdx_perm l (c + 1) j hc1 hjlen
    have hswx : (swapIdx l (c + 1) j).getD (c + 1) default
        = t.getD (c + 1) default := by
      rw [swapIdx_getD_fst l (c + 1) j hc1 hjlen]; exact hjx2
    have hdl : swapIdx l (c + 1) j
        = (swapIdx l (c + 1) j).dropLast ++ [t.getD (c + 1) default] := by
      have h0 := eq_dropLast_append_getD (swapIdx l (c + 1) j)
        (by intro hnil; rw [hnil] at hswlen; simp at hswlen)
      rw [hswlen, (by omega : c + 2 - 1 = c + 1), hswx] at h0
      exact h0
    have hdt : t = t.dropLast ++ [t.getD (c + 1) default] := by
      have h0 := eq_dropLast_append_getD t
        (by intro hnil; rw [hnil] at hlt; simp at hlt)
      rw [hlt, (by omega : c + 2 - 1 = c + 1)] at h0
      exact h0
    have hperm2 : List.Perm t.dropLast (swapIdx l (c + 1) j).dropLast := by
      have hx : List.Perm (t.dropLast ++ [t.getD (c + 1) default])
          ((swapIdx l (c + 1) j).dropLast ++ [t.getD (c + 1) default]) := by
        rw [← hdl, ← hdt]
        exact hp.trans hswp.symm
      exact (List.perm_append_right_iff [t.getD (c + 1) default]).mp hx
    have hlen2 : (swapIdx l (c + 1) j).dropLast.length = c + 1 := by
      rw [List.length_dropLast, hswlen]
      omega
    obtain ⟨ds, hdv, hfy⟩ :=
      ih (swapIdx l (c + 1) j).dropLast t.dropLast hlen2 hperm2
    refine ⟨j :: ds, ?_, ?_⟩
    · show (decide (j ≤ c + 1) && validDraws c ds) = true
      rw [decide_eq_true hj, hdv]
      rfl
    · show fyLoop (swapIdx l (c + 1) j) c ds = t
      conv_lhs => rw [hdl]
      rw [fyLoop_append c ds _ [t.getD (c + 1) default] hdv
        (by rw [hlen2]; omega)]
      rw [hfy, ← hdt]

theorem take_getD_drop {α : Type} [Inhabited α] (l : List α) (i : Nat)
    (h : i < l.length) :
    l.take i ++ l.getD i default :: l.drop (i + 1) = l := by
  induction l generalizing i with
  | nil => simp at h
  | cons a tl ih =>
    cases i with
    | zero => simp
    | succ i =>
      have h2 : i < tl.length := by simpa using h
      simp only [List.take_succ_cons, List.getD_cons_succ, List.drop_succ_cons,
        List.cons_append]
      exact congrArg (List.cons a) (ih i h2)

theorem spliceInsert_perm {α : Type} (l : List α) (t : Nat) (a : α) :
    List.Perm (l.take t ++ a :: l.drop t) (a :: l) := by
  have h := @List.perm_middle α a (l.take t) (l.drop t)
  rw [List.take_append_drop] at h
  exact h

theorem spliceInsert_getD {α : Type} [Inhabited α] (l : List α) (t : Nat)
    (a : α) (ht : t ≤ l.length) :
    (l.take t ++ a :: l.drop t).getD t default = a := by
  have hlen : (l.take t).length = t := by
    rw [List.length_take]
    omega
  rw [List.getD_append_right _ _ _ _ (by omega), hlen, Nat.sub_self,
    List.getD_cons_zero]

theorem getQueue_mapSet (m : QMap) (g : GuildId) (q : List QueuedSong) :
    getQueue (mapSet m g q) g = q := by
  simp [getQueue, mapSet]

/-! ### Claim theorems -/

/-- Claim C1: `shuffleQueue` is a no-op (same store, no event) on a queue of
length at most 1; on a queue of length at least 2 with a valid draw list it
keeps position 0, replaces the suffix by exactly the Fisher-Yates permutation
determined by the draws (a permutation of the old suffix), and emits one
`queueUpdate`; moreover, for a duplicate-free suffix, every permutation of
the suffix is produced by exactly one valid draw list, so uniform draws give
a uniform suffix permutation. -/
theorem C1_shuffle_correct (m : QMap) (g : GuildId) (draws : List Nat) :
    ((getQueue m g).length ≤ 1 → shuffleQueue m g draws = (m, [])) ∧
    (2 ≤ (getQueue m g).length →
      validDraws ((getQueue m g).tail.length - 1) draws = true →
      shuffleQueue m g draws =
        (mapSet m g ((getQueue m g).headD default ::
          fyLoop (getQueue m g).tail ((getQueue m g).tail.length - 1) draws),
         [g]) ∧
      getQueue (shuffleQueue m g draws).1 g =
        (getQueue m g).headD default ::
          fyLoop (getQueue m g).tail ((getQueue m g).tail.length - 1) draws ∧
      List.Perm (getQueue (shuffleQueue m g draws).1 g).tail
        (getQueue m g).tail) ∧
    (2 ≤ (getQueue m g).length → (getQueue m g).tail.Nodup →
      ∀ t, List.Perm t (getQueue m g).tail →
      ∃! ds, validDraws ((getQueue m g).tail.length - 1) ds = true ∧
        fyLoop (getQueue m g).tail ((getQueue m g).tail.length - 1) ds
          = t) := by
  have htail : (getQueue m g).tail.length = (getQueue m g).length - 1 :=
    List.length_tail _
  refine ⟨?_, ?_, ?_⟩
  · intro h
    simp [shuffleQueue, h]
  · intro h2 hv
    have hne : ¬ (getQueue m g).length ≤ 1 := by omega
    have heq : shuffleQueue m g draws =
        (mapSet m g ((getQueue m g).headD default ::
          fyLoop (getQueue m g).tail ((getQueue m g).tail.length - 1) draws),
         [g]) := by
      simp [shuffleQueue, hne]
    refine ⟨heq, ?_, ?_⟩
    · rw [heq, getQueue_mapSet]
    · rw [heq, getQueue_mapSet]
      simp only [List.tail_cons]
      exact fyLoop_perm _ draws _ (by omega) hv
  · intro h2 hn t hp
    have hc : (getQueue m g).tail.length - 1 < (getQueue m g).tail.length :=
      by omega
    obtain ⟨ds, hdv, hfy⟩ := fyLoop_surj ((getQueue m g).tail.length - 1)
      (getQueue m g).tail t (by omega) hp
    refine ⟨ds, ⟨hdv, hfy⟩, ?_⟩
    intro ds2 hds2
    exact fyLoop_inj _ _ hn hc ds2 ds hds2.1 hdv (hds2.2.trans hfy.symm)

/-- Witness for C1 at the concrete store `qABC` (queue `[A, B, C]`) with the
single valid draw list `[1]`, and suffix target `[C, B]`. -/
theorem C1_shuffle_correct_witness :
    (2 ≤ (getQueue qABC "g").length ∧
      validDraws ((getQueue qABC "g").tail.length - 1) [1] = true ∧
      (getQueue qABC "g").tail.Nodup) ∧
    shuffleQueue qABC "g" [1] =
      (mapSet qABC "g" ((getQueue qABC "g").headD default ::
        fyLoop (getQueue qABC "g").tail
          ((getQueue qABC "g").tail.length - 1) [1]), ["g"]) ∧
    (∃! ds, validDraws ((getQueue qABC "g").tail.length - 1) ds = true ∧
      fyLoop (getQueue qABC "g").tail
        ((getQueue qABC "g").tail.length - 1) ds = [songC, songB]) :=
  ⟨⟨by decide, by decide, by decide⟩,
   ((C1_shuffle_correct qABC "g" [1]).2.1 (by decide) (by decide)).1,
   (C1_shuffle_correct qABC "g" [1]).2.2 (by decide) (by decide)
     [songC, songB] (by decide)⟩

/-- Claim C2: a successful enqueue attempts playback-start exactly when the
queue was empty immediately before the call; the appended item is stored in
either case, one `queueUpdate` is emitted, and the outcome of the
playback-start attempt (success or failure) changes nothing about the call's
effect on the store or its result. -/
theorem C2_enqueue_playback_start (m : QMap) (g : GuildId) (md : Song)
    (rid rname : String) (pb : Bool) :
    ((addLinkToQueue m g (some md) rid rname pb).2.2.1 = true ↔
      getQueue m g = []) ∧
    (addLinkToQueue m g (some md) rid rname pb).1 g
      = some (getQueue m g ++ [⟨md, ⟨rid, rname⟩⟩]) ∧
    (addLinkToQueue m g (some md) rid rname pb).2.1 = [g] ∧
    addLinkToQueue m g (some md) rid rname true
      = addLinkToQueue m g (some md) rid rname false := by
  cases hm : m g with
  | none =>
    refine ⟨?_, ?_, rfl, rfl⟩
    · simp [addLinkToQueue, hm, getQueue, mapSet]
    · simp [addLinkToQueue, hm, getQueue, mapSet]
  | some q =>
    refine ⟨?_, ?_, rfl, rfl⟩
    · simp only [addLinkToQueue, hm, Option.getD_some, List.length_append,
        List.length_cons, List.length_nil, decide_eq_true_eq, getQueue]
      constructor
      · intro h
        have : q.length = 0 := by omega
        exact List.eq_nil_of_length_eq_zero this
      · intro h
        subst h
        simp
    · simp [addLinkToQueue, hm, getQueue, mapSet]

/-- Witness for C2 on the empty store (queue empty before the call): the
playback attempt is triggered and the item is appended. -/
theorem C2_enqueue_playback_start_witness :
    ((addLinkToQueue emptyQMap "g" (some songA.song) "u1" "alice" false).2.2.1
        = true ↔ getQueue emptyQMap "g" = []) ∧
    (addLinkToQueue emptyQMap "g" (some songA.song) "u1" "alice" false).1 "g"
      = some (getQueue emptyQMap "g" ++ [⟨songA.song, ⟨"u1", "alice"⟩⟩]) ∧
    (addLinkToQueue emptyQMap "g" (some songA.song) "u1" "alice" false).2.1
      = ["g"] ∧
    addLinkToQueue emptyQMap "g" (some songA.song) "u1" "alice" true
      = addLinkToQueue emptyQMap "g" (some songA.song) "u1" "alice" false :=
  C2_enqueue_playback_start emptyQMap "g" songA.song "u1" "alice" false

/-- Claim C3, counterexample: on the length-1 queue `[songA]` the truncation
removes nothing (the stored queue is unchanged), yet a `queueUpdate` event is
emitted, contradicting "a notification is emitted only when the truncation
actually removed elements". -/
theorem C3_counterexample :
    getQueue (clearQueueExceptCurrent qA "g").1 "g" = getQueue qA "g" ∧
    (clearQueueExceptCurrent qA "g").2 = ["g"] := by
  constructor
  · decide
  · decide

/-- Claim C3 as amended: `clearQueueExceptCurrent` truncates the queue to at
most its first element and never errors; on an empty (or absent) queue it is
a no-op with no event; on any non-empty queue — including a length-1 queue,
where nothing is removed — it stores `[first]` and emits `queueUpdate`. -/
theorem C3_clear_except_current (m : QMap) (g : GuildId) :
    (getQueue m g = [] → clearQueueExceptCurrent m g = (m, [])) ∧
    (∀ a l2, getQueue m g = a :: l2 →
      clearQueueExceptCurrent m g = (mapSet m g [a], [g]) ∧
      getQueue (clearQueueExceptCurrent m g).1 g = [a]) := by
  cases hm : m g with
  | none =>
    constructor
    · intro _
      simp [clearQueueExceptCurrent, hm]
    · intro a l2 h
      rw [getQueue, hm] at h
      simp at h
  | some q =>
    constructor
    · intro h
      rw [getQueue, hm, Option.getD_some] at h
      subst h
      simp [clearQueueExceptCurrent, hm]
    · intro a l2 h
      rw [getQueue, hm, Option.getD_some] at h
      subst h
      have heq : clearQueueExceptCurrent m g = (mapSet m g [a], [g]) := by
        simp [clearQueueExceptCurrent, hm]
      exact ⟨heq, by rw [heq, getQueue_mapSet]⟩

/-- Witness for C3 (amended) on the queue `[A, B, C]`: the result queue is
`[A]` and the event is emitted; also on the empty store: no-op, no event. -/
theorem C3_clear_except_current_witness :
    clearQueueExceptCurrent qABC "g" = (mapSet qABC "g" [songA], ["g"]) ∧
    getQueue (clearQueueExceptCurrent qABC "g").1 "g" = [songA] ∧
    clearQueueExceptCurrent emptyQMap "g" = (emptyQMap, []) :=
  ⟨((C3_clear_except_current qABC "g").2 songA [songB, songC] (by decide)).1,
   ((C3_clear_except_current qABC "g").2 songA [songB, songC] (by decide)).2,
   (C3_clear_except_current emptyQMap "g").1 (by decide)⟩

/-- Claim C4: `getNextQueueItem` on an empty (or absent) queue is a no-op
returning `none` with no event; on a queue `a :: l` it removes `a`, stores
`l`, emits one `queueUpdate` and returns the new head of `l` (`none` when
the queue had length 1), decrementing the length by exactly 1. -/
theorem C4_advance (m : QMap) (g : GuildId) :
    (getQueue m g = [] → getNextQueueItem m g = (m, [], none)) ∧
    (∀ a l2, getQueue m g = a :: l2 →
      getNextQueueItem m g = (mapSet m g l2, [g], l2.head?) ∧
      getQueue (getNextQueueItem m g).1 g = l2 ∧
      (getQueue (getNextQueueItem m g).1 g).length
        = (getQueue m g).length - 1) := by
  cases hm : m g with
  | none =>
    constructor
    · intro _
      simp [getNextQueueItem, hm]
    · intro a l2 h
      rw [getQueue, hm] at h
      simp at h
  | some q =>
    constructor
    · intro h
      rw [getQueue, hm, Option.getD_some] at h
      subst h
      simp [getNextQueueItem, hm]
    · intro a l2 h
      rw [getQueue, hm, Option.getD_some] at h
      subst h
      have heq : getNextQueueItem m g = (mapSet m g l2, [g], l2.head?) := by
        simp [getNextQueueItem, hm]
      refine ⟨heq, by rw [heq, getQueue_mapSet], ?_⟩
      rw [heq, getQueue_mapSet, getQueue, hm, Option.getD_some]
      simp

/-- Witness for C4 on the queue `[A, B, C]` (advance returns `B`) and on the
empty store (no-op returning `none`). -/
theorem C4_advance_witness :
    getNextQueueItem qABC "g" = (mapSet qABC "g" [songB, songC], ["g"],
      some songB) ∧
    getQueue (getNextQueueItem qABC "g").1 "g" = [songB, songC] ∧
    getNextQueueItem emptyQMap "g" = (emptyQMap, [], none) :=
  ⟨((C4_advance qABC "g").2 songA [songB, songC] (by decide)).1,
   ((C4_advance qABC "g").2 songA [songB, songC] (by decide)).2.1,
   (C4_advance emptyQMap "g").1 (by decide)⟩

/-- Claim C7: when metadata resolution fails, `addLinkToQueue` throws
`Could not fetch song metadata` and performs no mutation: the store is
returned untouched and no `queueUpdate` is emitted, for any tenant and any
requester. -/
theorem C7_metadata_failure_no_mutation (m : QMap) (g : GuildId)
    (rid rname : String) (pb : Bool) :
    addLinkToQueue m g none rid rname pb
      = (m, [], false, Except.error "Could not fetch song metadata") := rfl

/-- Claim C5: `moveSong` returns `false` with no mutation and no event when
the queue is empty or absent, when either index is outside `[0, length)`, or
when the indices are equal (the store is returned untouched); otherwise it
splices the song out of `fromIndex` and back in at `toIndex` (shifting the
elements in between), emits one `queueUpdate` and returns `true`; the moved
song ends up at position `toIndex` and the queue stays a permutation of the
old one.  Index 0 passes the guards like any other index. -/
theorem C5_move_song (m : QMap) (g : GuildId) (fi ti : Int) :
    (getQueue m g = [] → moveSong m g fi ti = (m, [], false)) ∧
    (fi < 0 ∨ ((getQueue m g).length : Int) ≤ fi ∨ ti < 0 ∨
        ((getQueue m g).length : Int) ≤ ti ∨ fi = ti →
      moveSong m g fi ti = (m, [], false)) ∧
    (0 ≤ fi → fi < ((getQueue m g).length : Int) → 0 ≤ ti →
      ti < ((getQueue m g).length : Int) → fi ≠ ti →
      moveSong m g fi ti =
        (mapSet m g
          (((getQueue m g).take fi.toNat
              ++ (getQueue m g).drop (fi.toNat + 1)).take ti.toNat
            ++ (getQueue m g).getD fi.toNat default
            :: ((getQueue m g).take fi.toNat
              ++ (getQueue m g).drop (fi.toNat + 1)).drop ti.toNat),
         [g], true) ∧
      (getQueue (moveSong m g fi ti).1 g).getD ti.toNat default
        = (getQueue m g).getD fi.toNat default ∧
      List.Perm (getQueue (moveSong m g fi ti).1 g) (getQueue m g)) := by
  cases hm : m g with
  | none =>
    have hgq : getQueue m g = [] := by rw [getQueue, hm]; rfl
    rw [hgq]
    refine ⟨fun _ => by simp [moveSong, hm], fun _ => by simp [moveSong, hm],
      ?_⟩
    intro h0 h1 _ _ _
    simp only [List.length_nil, Nat.cast_zero] at h1
    omega
  | some q =>
    have hgq : getQueue m g = q := by rw [getQueue, hm]; rfl
    rw [hgq]
    refine ⟨?_, ?_, ?_⟩
    · intro h
      subst h
      simp [moveSong, hm]
    · intro h
      by_cases hq0 : q.length = 0
      · simp [moveSong, hm, hq0]
      · simp [moveSong, hm, hq0, h]
    · intro hf0 hf1 ht0 ht1 hne
      have hq0 : ¬ q.length = 0 := by omega
      have hg2 : ¬ (fi < 0 ∨ (q.length : Int) ≤ fi ∨ ti < 0 ∨
          (q.length : Int) ≤ ti ∨ fi = ti) := by omega
      have hfn : fi.toNat < q.length := (Int.toNat_lt hf0).mpr hf1
      have htn : ti.toNat < q.length := (Int.toNat_lt ht0).mpr ht1
      have heq : moveSong m g fi ti =
          (mapSet m g
            ((q.take fi.toNat ++ q.drop (fi.toNat + 1)).take ti.toNat
              ++ q.getD fi.toNat default
              :: (q.take fi.toNat ++ q.drop (fi.toNat + 1)).drop ti.toNat),
           [g], true) := by
        simp [moveSong, hm, hq0, hg2]
      have hq1len : (q.take fi.toNat ++ q.drop (fi.toNat + 1)).length
          = q.length - 1 := by
        rw [List.length_append, List.length_take, List.length_drop]
        omega
      refine ⟨heq, ?_, ?_⟩
      · rw [heq, getQueue_mapSet]
        exact spliceInsert_getD _ ti.toNat _ (by omega)
      · rw [heq, getQueue_mapSet]
        have hq : List.Perm q
            (q.getD fi.toNat default
              :: (q.take fi.toNat ++ q.drop (fi.toNat + 1))) := by
          conv_lhs => rw [← take_getD_drop q fi.toNat hfn]
          exact List.perm_middle
        exact (spliceInsert_perm _ ti.toNat _).trans hq.symm

/-- Witness for C5 on the queue `[A, B, C]`: moving index 0 to index 2
succeeds (index 0 is not special-cased) and yields `[B, C, A]`; an
out-of-range call and an equal-indices call return `false` untouched. -/
theorem C5_move_song_witness :
    moveSong qABC "g" 0 2 =
      (mapSet qABC "g"
        (((getQueue qABC "g").take (0 : Int).toNat
            ++ (getQueue qABC "g").drop ((0 : Int).toNat + 1)).take
              (2 : Int).toNat
          ++ (getQueue qABC "g").getD (0 : Int).toNat default
          :: ((getQueue qABC "g").take (0 : Int).toNat
            ++ (getQueue qABC "g").drop ((0 : Int).toNat + 1)).drop
              (2 : Int).toNat),
       ["g"], true) ∧
    moveSong qABC "g" 1 3 = (qABC, [], false) ∧
    moveSong qABC "g" 1 1 = (qABC, [], false) :=
  ⟨((C5_move_song qABC "g" 0 2).2.2 (by decide) (by decide) (by decide)
      (by decide) (by decide)).1,
   (C5_move_song qABC "g" 1 3).2.1 (by decide),
   (C5_move_song qABC "g" 1 1).2.1 (by decide)⟩

/-- Claim C6: `removeSong` returns `none` with no mutation when the queue is
empty or absent or the index is outside `[0, length)`; otherwise it removes
and returns exactly the element at that index, the length drops by exactly
1, the relative order of the remaining elements (the elements before and
after the removed position) is preserved, and one `queueUpdate` is
emitted. -/
theorem C6_remove_song (m : QMap) (g : GuildId) (idx : Int) :
    (getQueue m g = [] → removeSong m g idx = (m, [], none)) ∧
    (idx < 0 ∨ ((getQueue m g).length : Int) ≤ idx →
      removeSong m g idx = (m, [], none)) ∧
    (0 ≤ idx → idx < ((getQueue m g).length : Int) →
      removeSong m g idx =
        (mapSet m g ((getQueue m g).take idx.toNat
          ++ (getQueue m g).drop (idx.toNat + 1)), [g],
         some ((getQueue m g).getD idx.toNat default)) ∧
      getQueue (removeSong m g idx).1 g
        = (getQueue m g).take idx.toNat
          ++ (getQueue m g).drop (idx.toNat + 1) ∧
      (getQueue (removeSong m g idx).1 g).length
        = (getQueue m g).length - 1 ∧
      (getQueue m g).take idx.toNat
        ++ (getQueue m g).getD idx.toNat default
        :: (getQueue m g).drop (idx.toNat + 1) = getQueue m g) := by
  cases hm : m g with
  | none =>
    have hgq : getQueue m g = [] := by rw [getQueue, hm]; rfl
    rw [hgq]
    refine ⟨fun _ => by simp [removeSong, hm], fun _ => by simp [removeSong, hm],
      ?_⟩
    intro h0 h1
    simp only [List.length_nil, Nat.cast_zero] at h1
    omega
  | some q =>
    have hgq : getQueue m g = q := by rw [getQueue, hm]; rfl
    rw [hgq]
    refine ⟨?_, ?_, ?_⟩
    · intro h
      subst h
      simp [removeSong, hm]
    · intro h
      by_cases hq0 : q.length = 0
      · simp [removeSong, hm, hq0]
      · simp [removeSong, hm, hq0, h]
    · intro h0 h1
      have hq0 : ¬ q.length = 0 := by omega
      have hg2 : ¬ (idx < 0 ∨ (q.length : Int) ≤ idx) := by omega
      have hin : idx.toNat < q.length := (Int.toNat_lt h0).mpr h1
      have heq : removeSong m g idx =
          (mapSet m g (q.take idx.toNat ++ q.drop (idx.toNat + 1)), [g],
           some (q.getD idx.toNat default)) := by
        simp [removeSong, hm, hq0, hg2]
      refine ⟨heq, by rw [heq, getQueue_mapSet], ?_, ?_⟩
      · rw [heq, getQueue_mapSet, List.length_append, List.length_take,
          List.length_drop]
        omega
      · exact take_getD_drop q idx.toNat hin

/-- Witness for C6 on the queue `[A, B, C]`: removing index 1 returns `B`
and leaves `[A, C]`; a negative and a too-large index return `none`
untouched. -/
theorem C6_remove_song_witness :
    removeSong qABC "g" 1 =
      (mapSet qABC "g" ((getQueue qABC "g").take (1 : Int).toNat
        ++ (getQueue qABC "g").drop ((1 : Int).toNat + 1)), ["g"],
       some ((getQueue qABC "g").getD (1 : Int).toNat default)) ∧
    removeSong qABC "g" (-1) = (qABC, [], none) ∧
    removeSong qABC "g" 3 = (qABC, [], none) :=
  ⟨((C6_remove_song qABC "g" 1).2.2 (by decide) (by decide)).1,
   (C6_remove_song qABC "g" (-1)).2.1 (by decide),
   (C6_remove_song qABC "g" 3).2.1 (by decide)⟩

/-- Claim C8, code observation: `getQueue` returns the stored list itself —
`this.queues.get(guild.id)` with no copy, which in the source is the live
internal array — and `[]` for an unknown tenant.  The no-external-mutability
half of the claim concerns JavaScript reference semantics and fails on the
code: a caller pushing onto the returned array pushes onto the engine's own
queue. -/
theorem C8_get_queue_returns_internal (m : QMap) (g : GuildId)
    (q : List QueuedSong) (hm : m g = some q) :
    getQueue m g = q ∧ getQueue emptyQMap g = [] :=
  ⟨by rw [getQueue, hm]; rfl, rfl⟩

/-- Witness for C8's code observation at the store `qA`. -/
theorem C8_get_queue_returns_internal_witness :
    getQueue qA "g" = [songA] ∧ getQueue emptyQMap "g" = [] :=
  C8_get_queue_returns_internal qA "g" [songA] (by decide)

theorem clearQueue_frame (m : QMap) (g g2 : GuildId) (h : g2 ≠ g) :
    (clearQueue m g).1 g2 = m g2 := by
  simp [clearQueue, mapSet, h]

theorem addLinkToQueue_frame (m : QMap) (g g2 : GuildId)
    (resolved : Option Song) (rid rname : String) (pb : Bool)
    (h : g2 ≠ g) :
    (addLinkToQueue m g resolved rid rname pb).1 g2 = m g2 := by
  cases resolved with
  | none => rfl
  | some md =>
    cases hm : m g with
    | none => simp [addLinkToQueue, hm, mapSet, h]
    | some q => simp [addLinkToQueue, hm, mapSet, h]

theorem getNextQueueItem_frame (m : QMap) (g g2 : GuildId) (h : g2 ≠ g) :
    (getNextQueueItem m g).1 g2 = m g2 := by
  cases hm : m g with
  | none => simp [getNextQueueItem, hm]
  | some q =>
    by_cases hq : q.length = 0 <;> simp [getNextQueueItem, hm, hq, mapSet, h]

theorem clearQueueExceptCurrent_frame (m : QMap) (g g2 : GuildId)
    (h : g2 ≠ g) : (clearQueueExceptCurrent m g).1 g2 = m g2 := by
  cases hm : m g with
  | none => simp [clearQueueExceptCurrent, hm]
  | some q =>
    by_cases hq : q.length = 0 <;>
      simp [clearQueueExceptCurrent, hm, hq, mapSet, h]

theorem shuffleQueue_frame (m : QMap) (g g2 : GuildId) (draws : List Nat)
    (h : g2 ≠ g) : (shuffleQueue m g draws).1 g2 = m g2 := by
  by_cases hq : (getQueue m g).length ≤ 1 <;>
    simp [shuffleQueue, hq, mapSet, h]

theorem moveSong_frame (m : QMap) (g g2 : GuildId) (fi ti : Int)
    (h : g2 ≠ g) : (moveSong m g fi ti).1 g2 = m g2 := by
  cases hm : m g with
  | none => simp [moveSong, hm]
  | some q =>
    simp only [moveSong, hm]
    split_ifs <;> simp [mapSet, h]

theorem removeSong_frame (m : QMap) (g g2 : GuildId) (idx : Int)
    (h : g2 ≠ g) : (removeSong m g idx).1 g2 = m g2 := by
  cases hm : m g with
  | none => simp [removeSong, hm]
  | some q =>
    simp only [removeSong, hm]
    split_ifs <;> simp [mapSet, h]

theorem getQueue_agree (m m2 : QMap) (g : GuildId) (h : m g = m2 g) :
    getQueue m g = getQueue m2 g := by
  rw [getQueue, getQueue, h]

theorem getCurrentQueueItem_agree (m m2 : QMap) (g : GuildId)
    (h : m g = m2 g) : getCurrentQueueItem m g = getCurrentQueueItem m2 g := by
  unfold getCurrentQueueItem
  rw [h]

theorem clearQueue_agree (m m2 : QMap) (g : GuildId) :
    (clearQueue m g).1 g = (clearQueue m2 g).1 g ∧
    (clearQueue m g).2 = (clearQueue m2 g).2 := by
  refine ⟨?_, rfl⟩
  simp [clearQueue, mapSet]

theorem addLinkToQueue_agree (m m2 : QMap) (g : GuildId)
    (resolved : Option Song) (rid rname : String) (pb : Bool)
    (h : m g = m2 g) :
    (addLinkToQueue m g resolved rid rname pb).1 g
      = (addLinkToQueue m2 g resolved rid rname pb).1 g ∧
    (addLinkToQueue m g resolved rid rname pb).2
      = (addLinkToQueue m2 g resolved rid rname pb).2 := by
  cases resolved with
  | none => exact ⟨h, rfl⟩
  | some md =>
    cases hm : m g with
    | none =>
      have hm2 : m2 g = none := by rw [← h, hm]
      simp [addLinkToQueue, hm, hm2, mapSet]
    | some q =>
      have hm2 : m2 g = some q := by rw [← h, hm]
      simp [addLinkToQueue, hm, hm2, mapSet]

theorem getNextQueueItem_agree (m m2 : QMap) (g : GuildId)
    (h : m g = m2 g) :
    (getNextQueueItem m g).1 g = (getNextQueueItem m2 g).1 g ∧
    (getNextQueueItem m g).2 = (getNextQueueItem m2 g).2 := by
  cases hm : m g with
  | none =>
    have hm2 : m2 g = none := by rw [← h, hm]
    simp [getNextQueueItem, hm, hm2, h]
  | some q =>
    have hm2 : m2 g = some q := by rw [← h, hm]
    by_cases hq : q.length = 0 <;>
      simp [getNextQueueItem, hm, hm2, hq, mapSet, h]

theorem clearQueueExceptCurrent_agree (m m2 : QMap) (g : GuildId)
    (h : m g = m2 g) :
    (clearQueueExceptCurrent m g).1 g = (clearQueueExceptCurrent m2 g).1 g ∧
    (clearQueueExceptCurrent m g).2 = (clearQueueExceptCurrent m2 g).2 := by
  cases hm : m g with
  | none =>
    have hm2 : m2 g = none := by rw [← h, hm]
    simp [clearQueueExceptCurrent, hm, hm2, h]
  | some q =>
    have hm2 : m2 g = some q := by rw [← h, hm]
    by_cases hq : q.length = 0 <;>
      simp [clearQueueExceptCurrent, hm, hm2, hq, mapSet, h]

theorem shuffleQueue_agree (m m2 : QMap) (g : GuildId) (draws : List Nat)
    (h : m g = m2 g) :
    (shuffleQueue m g draws).1 g = (shuffleQueue m2 g draws).1 g ∧
    (shuffleQueue m g draws).2 = (shuffleQueue m2 g draws).2 := by
  have hq := getQueue_agree m m2 g h
  simp only [shuffleQueue, ← hq]
  by_cases hlen : (getQueue m g).length ≤ 1 <;> simp [hlen, mapSet, h]

theorem moveSong_agree (m m2 : QMap) (g : GuildId) (fi ti : Int)
    (h : m g = m2 g) :
    (moveSong m g fi ti).1 g = (moveSong m2 g fi ti).1 g ∧
    (moveSong m g fi ti).2 = (moveSong m2 g fi ti).2 := by
  cases hm : m g with
  | none =>
    have hm2 : m2 g = none := by rw [← h, hm]
    simp [moveSong, hm, hm2, h]
  | some q =>
    have hm2 : m2 g = some q := by rw [← h, hm]
    simp only [moveSong, hm, hm2]
    split_ifs <;> simp [mapSet, h]

theorem removeSong_agree (m m2 : QMap) (g : GuildId) (idx : Int)
    (h : m g = m2 g) :
    (removeSong m g idx).1 g = (removeSong m2 g idx).1 g ∧
    (removeSong m g idx).2 = (removeSong m2 g idx).2 := by
  cases hm : m g with
  | none =>
    have hm2 : m2 g = none := by rw [← h, hm]
    simp [removeSong, hm, hm2, h]
  | some q =>
    have hm2 : m2 g = some q := by rw [← h, hm]
    simp only [removeSong, hm, hm2]
    split_ifs <;> simp [mapSet, h]

/-- Claim C9: tenant isolation.  Every operation invoked for tenant `g`
leaves the stored queue of any other tenant `g2` unchanged (both enqueue
outcomes included), and the effect and return value of every operation for
`g` depend only on what the store holds for `g`, never on another tenant's
queue (here: two stores agreeing on `g` behave identically on `g`). -/
theorem C9_tenant_isolation (m m2 : QMap) (g g2 : GuildId) (hne : g2 ≠ g)
    (hagree : m g = m2 g) (draws : List Nat) (fi ti idx : Int) (md : Song)
    (rid rname : String) (pb : Bool) :
    ((clearQueue m g).1 g2 = m g2 ∧
     (addLinkToQueue m g (some md) rid rname pb).1 g2 = m g2 ∧
     (addLinkToQueue m g none rid rname pb).1 g2 = m g2 ∧
     (getNextQueueItem m g).1 g2 = m g2 ∧
     (clearQueueExceptCurrent m g).1 g2 = m g2 ∧
     (shuffleQueue m g draws).1 g2 = m g2 ∧
     (moveSong m g fi ti).1 g2 = m g2 ∧
     (removeSong m g idx).1 g2 = m g2) ∧
    (getQueue m g = getQueue m2 g ∧
     getCurrentQueueItem m g = getCurrentQueueItem m2 g ∧
     (clearQueue m g).1 g = (clearQueue m2 g).1 g ∧
     (clearQueue m g).2 = (clearQueue m2 g).2 ∧
     (addLinkToQueue m g (some md) rid rname pb).1 g
       = (addLinkToQueue m2 g (some md) rid rname pb).1 g ∧
     (addLinkToQueue m g (some md) rid rname pb).2
       = (addLinkToQueue m2 g (some md) rid rname pb).2 ∧
     (getNextQueueItem m g).1 g = (getNextQueueItem m2 g).1 g ∧
     (getNextQueueItem m g).2 = (getNextQueueItem m2 g).2 ∧
     (clearQueueExceptCurrent m g).1 g
       = (clearQueueExceptCurrent m2 g).1 g ∧
     (clearQueueExceptCurrent m g).2 = (clearQueueExceptCurrent m2 g).2 ∧
     (shuffleQueue m g draws).1 g = (shuffleQueue m2 g draws).1 g ∧
     (shuffleQueue m g draws).2 = (shuffleQueue m2 g draws).2 ∧
     (moveSong m g fi ti).1 g = (moveSong m2 g fi ti).1 g ∧
     (moveSong m g fi ti).2 = (moveSong m2 g fi ti).2 ∧
     (removeSong m g idx).1 g = (removeSong m2 g idx).1 g ∧
     (removeSong m g idx).2 = (removeSong m2 g idx).2) :=
  ⟨⟨clearQueue_frame m g g2 hne,
    addLinkToQueue_frame m g g2 (some md) rid rname pb hne,
    addLinkToQueue_frame m g g2 none rid rname pb hne,
    getNextQueueItem_frame m g g2 hne,
    clearQueueExceptCurrent_frame m g g2 hne,
    shuffleQueue_frame m g g2 draws hne,
    moveSong_frame m g g2 fi ti hne,
    removeSong_frame m g g2 idx hne⟩,
   ⟨getQueue_agree m m2 g hagree,
    getCurrentQueueItem_agree m m2 g hagree,
    (clearQueue_agree m m2 g).1,
    (clearQueue_agree m m2 g).2,
    (addLinkToQueue_agree m m2 g (some md) rid rname pb hagree).1,
    (addLinkToQueue_agree m m2 g (some md) rid rname pb hagree).2,
    (getNextQueueItem_agree m m2 g hagree).1,
    (getNextQueueItem_agree m m2 g hagree).2,
    (clearQueueExceptCurrent_agree m m2 g hagree).1,
    (clearQueueExceptCurrent_agree m m2 g hagree).2,
    (shuffleQueue_agree m m2 g draws hagree).1,
    (shuffleQueue_agree m m2 g draws hagree).2,
    (moveSong_agree m m2 g fi ti hagree).1,
    (moveSong_agree m m2 g fi ti hagree).2,
    (removeSong_agree m m2 g idx hagree).1,
    (removeSong_agree m m2 g idx hagree).2⟩⟩

/-- Witness for C9: the store `qAB2` holds `[A]` for `"g"` and `[B]` for
`"h"`; the store `qA` holds only `[A]` for `"g"`.  The two tenants are
distinct and the stores agree on `"g"`, so the theorem applies; its first
component shows `clearQueue` for `"g"` leaves `"h"` untouched. -/
theorem C9_tenant_isolation_witness :
    (clearQueue qAB2 "g").1 "h" = qAB2 "h" ∧
    getQueue qAB2 "g" = getQueue qA "g" :=
  ⟨(C9_tenant_isolation qAB2 qA "g" "h" (by decide) (by decide) [0] 0 1 0
      songB.song "u" "n" false).1.1,
   (C9_tenant_isolation qAB2 qA "g" "h" (by decide) (by decide) [0] 0 1 0
      songB.song "u" "n" false).2.1⟩

/-- Claim C10: when the message content does not start with the configured
command marker, or the author is a bot, `handleMessage` returns before
looking anything up: no command is dispatched, no reply of any kind is
produced, and — since registry and queue state are only touched through a
dispatched command — both stay untouched. -/
theorem C10_dispatcher_ignores (pfx : JsString) (ru : Bool)
    (cmds : List (JsString × BotCommand))
    (als : List (JsString × JsString)) (msg : IncomingMessage)
    (h : jsStartsWith msg.content pfx = false ∨ msg.authorBot = true) :
    handleMessage pfx ru cmds als msg = DispatchResult.noAction := by
  unfold handleMessage
  rcases h with h | h <;> rw [h] <;> simp

/-- Witness for C10: the content `hi` does not start with the marker `!`, so
the dispatcher does nothing; a bot-authored message is likewise ignored. -/
theorem C10_dispatcher_ignores_witness :
    handleMessage ['!'] true [] [] ⟨['h', 'i'], false, true, true⟩
      = DispatchResult.noAction ∧
    handleMessage ['!'] true [] [] ⟨['!', 'p'], true, true, true⟩
      = DispatchResult.noAction :=
  ⟨C10_dispatcher_ignores ['!'] true [] [] ⟨['h', 'i'], false, true, true⟩
     (Or.inl (by decide)),
   C10_dispatcher_ignores ['!'] true [] [] ⟨['!', 'p'], true, true, true⟩
     (Or.inr (by decide))⟩
